import Mathlib

/-!
Verification development for the OSSM BLE web client.

This file gives a shallow embedding, in Lean, of the parts of the client that
the verified properties talk about:

* the raw setters and their input validation, firmware compensation and
  pending-target bookkeeping (src/ossmBle.ts, setSpeed / setStroke / setDepth /
  setSensation / setPattern);
* the status reconciler (src/ossmBle.ts, onCurrentStateChanged);
* the navigation router and its breadth-first search over the fixed page graph
  (src/ossmBle.ts, navigateTo; src/ossmBleTypes.ts, OSSM_PAGE_NAVIGATION_GRAPH);
* the motion planner ordering policy (src/ossmBle.ts, runStrokeEnginePattern);
* the emergency stop (src/ossmBle.ts, stop);
* the cancellation-aware serial task queue (src/helpers.ts, AsyncFunctionQueue);
* the pattern helper derivation (src/patterns.ts, PatternHelper).

Modelling conventions.  JavaScript numbers are modelled as exact rationals at
the public entry points, where the code inspects Number.isInteger (the test
becomes den = 1); once validation has established integrality, values are
carried as integers.  The asynchronous transport is modelled by recording the
list of characteristic writes an operation performs together with a response
oracle (the respond field) describing what the device echoes back; timing,
NaN and infinities are outside the model.
-/

/-- The three navigable pages of the device UI (src/ossmBleTypes.ts, OssmPage). -/
inductive OssmPage where
  | simplePenetration
  | strokeEngine
  | menu
deriving DecidableEq, Repr, Fintype

/-- The fixed page-transition graph (src/ossmBleTypes.ts, OSSM_PAGE_NAVIGATION_GRAPH). -/
def OSSM_PAGE_NAVIGATION_GRAPH : OssmPage → List OssmPage
  | .menu => [.simplePenetration, .strokeEngine]
  | .simplePenetration => [.menu]
  | .strokeEngine => [.menu]

/-- A device state snapshot (src/ossmBleTypes.ts, OssmState), after the
field remap performed by onCurrentStateChanged (device key state becomes
status).  Numeric fields are integers in the device's data model. -/
structure OssmState where
  status : String
  speed : ℤ
  stroke : ℤ
  sensation : ℤ
  depth : ℤ
  pattern : ℤ
deriving DecidableEq, Repr

/-- Play data for runStrokeEnginePattern (src/ossmBleTypes.ts, OssmPlayData). -/
structure OssmPlayData where
  speed : ℤ
  stroke : ℤ
  sensation : ℤ
  depth : ℤ
  pattern : ℤ
deriving DecidableEq, Repr

/-- A pattern list entry (src/ossmBleTypes.ts, OssmPattern). -/
structure OssmPattern where
  name : String
  idx : ℤ
  description : String
deriving DecidableEq, Repr

/-- The keys of an OssmState object, used to index the pending-target map
(a Partial of OssmState in the source). -/
inductive OssmField where
  | status
  | speed
  | stroke
  | sensation
  | depth
  | pattern
deriving DecidableEq, Repr

/-- A field value: the status field holds a string, all others hold numbers. -/
inductive FieldVal where
  | str (s : String)
  | num (n : ℤ)
deriving DecidableEq, Repr

/-- Field projection out of a state snapshot. -/
def OssmState.get (s : OssmState) : OssmField → FieldVal
  | .status => .str s.status
  | .speed => .num s.speed
  | .stroke => .num s.stroke
  | .sensation => .num s.sensation
  | .depth => .num s.depth
  | .pattern => .num s.pattern

/-- Key enumeration order of an OssmState object literal (status first, then
the play-data fields), as produced by the remap in onCurrentStateChanged. -/
def ossmFields : List OssmField :=
  [.status, .speed, .stroke, .sensation, .depth, .pattern]

/-- The pendingStateTarget map (src/ossmBle.ts): a JavaScript object, i.e. an
insertion-ordered association list from field keys to target values. -/
abbrev PendingTargets := List (OssmField × FieldVal)

/-- Assignment to a key of a JavaScript object: an existing key keeps its
position, a new key is appended. -/
def PendingTargets.set (p : PendingTargets) (k : OssmField) (v : FieldVal) :
    PendingTargets :=
  if p.any (fun e => e.1 == k) then p.map (fun e => if e.1 == k then (k, v) else e)
  else p ++ [(k, v)]

/-- The delete operator on a key of a JavaScript object. -/
def PendingTargets.erase (p : PendingTargets) (k : OssmField) : PendingTargets :=
  p.filter (fun e => !(e.1 == k))

/-- A characteristic write the client can perform, abstracting the ASCII
payloads (the encoding of a command as bytes is injective so commands are kept
as structured values). -/
inductive Command where
  | setSpeedCmd (v : ℤ)
  | setStrokeCmd (v : ℤ)
  | setDepthCmd (v : ℤ)
  | setSensationCmd (v : ℤ)
  | setPatternCmd (v : ℤ)
  | goCmd (p : OssmPage)
  | rawWrite (s : String)
  | readPatternListCmd
  | writePatternDescriptionCmd (idx : ℤ)
deriving DecidableEq, Repr

/-- How the device answers a command readback in sendCommand: the exact echo,
the echo prefixed with fail, or anything else. -/
inductive DeviceResponse where
  | echo
  | failed
  | unexpected
deriving DecidableEq, Repr

/-- The error taxonomy of the client, naming the DOMException / RangeError
outcomes the source throws. -/
inductive OssmError where
  | rangeError
  | invalidState
  | operationError
  | dataError
  | timeout
deriving DecidableEq, Repr

/-- The client-side state an OssmBle instance carries, restricted to the
fields the verified operations read or write.  The respond oracle stands for
the device's behaviour on the command characteristic; devicePatterns stands
for the content of the pattern-list and pattern-description characteristics. -/
structure ClientState where
  isReady : Bool
  cachedState : Option OssmState
  pendingStateTarget : PendingTargets
  cachedPatternList : Option (List OssmPattern)
  devicePatterns : List OssmPattern
  respond : Command → DeviceResponse

/-- Result of one public operation: the state after the call, the
characteristic writes it performed in order, and the error it threw (none on
success). -/
structure OpResult where
  state : ClientState
  sent : List Command
  err : Option OssmError

/-- sendCommand (src/ossmBle.ts) on the non-speedup path: throw if not ready,
write the command, read it back and classify the echo. -/
def sendCommand (st : ClientState) (cmd : Command) :
    List Command × Option OssmError :=
  if st.isReady = false then ([], some .invalidState)
  else
    match st.respond cmd with
    | .echo => ([cmd], none)
    | .failed => ([cmd], some .operationError)
    | .unexpected => ([cmd], some .dataError)

/-- setSpeed (src/ossmBle.ts): validate an integer in 0..100, short-circuit on
the cached value, register the pending target, send, and clear the pending
target in a finally block.  The speed payload is sent uncompensated. -/
def setSpeed (st : ClientState) (speed : ℚ) : OpResult :=
  if speed < 0 ∨ 100 < speed ∨ speed.den ≠ 1 then ⟨st, [], some .rangeError⟩
  else
    let v : ℤ := speed.num
    if st.cachedState.map OssmState.speed = some v then ⟨st, [], none⟩
    else
      let st1 : ClientState :=
        { st with pendingStateTarget := st.pendingStateTarget.set .speed (.num v) }
      let sc := sendCommand st1 (.setSpeedCmd v)
      ⟨{ st1 with pendingStateTarget := st1.pendingStateTarget.erase .speed },
       sc.1, sc.2⟩

/-- The firmware compensation applied by setStroke: values strictly between 0
and 100 are sent decremented (the device re-adds one). -/
def strokeApiValue (stroke : ℤ) : ℤ :=
  if 0 < stroke ∧ stroke < 100 then stroke - 1 else stroke

/-- setStroke (src/ossmBle.ts). -/
def setStroke (st : ClientState) (stroke : ℚ) : OpResult :=
  if stroke < 0 ∨ 100 < stroke ∨ stroke.den ≠ 1 then ⟨st, [], some .rangeError⟩
  else
    let v : ℤ := stroke.num
    if st.cachedState.map OssmState.stroke = some v then ⟨st, [], none⟩
    else
      let st1 : ClientState :=
        { st with pendingStateTarget := st.pendingStateTarget.set .stroke (.num v) }
      let sc := sendCommand st1 (.setStrokeCmd (strokeApiValue v))
      ⟨{ st1 with pendingStateTarget := st1.pendingStateTarget.erase .stroke },
       sc.1, sc.2⟩

/-- The firmware compensation applied by setDepth. -/
def depthApiValue (depth : ℤ) : ℤ :=
  if 0 < depth ∧ depth < 100 then depth - 1 else depth

/-- setDepth (src/ossmBle.ts). -/
def setDepth (st : ClientState) (depth : ℚ) : OpResult :=
  if depth < 0 ∨ 100 < depth ∨ depth.den ≠ 1 then ⟨st, [], some .rangeError⟩
  else
    let v : ℤ := depth.num
    if st.cachedState.map OssmState.depth = some v then ⟨st, [], none⟩
    else
      let st1 : ClientState :=
        { st with pendingStateTarget := st.pendingStateTarget.set .depth (.num v) }
      let sc := sendCommand st1 (.setDepthCmd (depthApiValue v))
      ⟨{ st1 with pendingStateTarget := st1.pendingStateTarget.erase .depth },
       sc.1, sc.2⟩

/-- The firmware compensation applied by setSensation. -/
def sensationApiValue (sensation : ℤ) : ℤ :=
  if 0 < sensation ∧ sensation < 100 then sensation - 1 else sensation

/-- setSensation (src/ossmBle.ts). -/
def setSensation (st : ClientState) (sensation : ℚ) : OpResult :=
  if sensation < 0 ∨ 100 < sensation ∨ sensation.den ≠ 1 then
    ⟨st, [], some .rangeError⟩
  else
    let v : ℤ := sensation.num
    if st.cachedState.map OssmState.sensation = some v then ⟨st, [], none⟩
    else
      let st1 : ClientState :=
        { st with pendingStateTarget := st.pendingStateTarget.set .sensation (.num v) }
      let sc := sendCommand st1 (.setSensationCmd (sensationApiValue v))
      ⟨{ st1 with pendingStateTarget := st1.pendingStateTarget.erase .sensation },
       sc.1, sc.2⟩

/-- The per-pattern half of getPatternList (src/ossmBle.ts): for each raw
pattern, write its index to the description characteristic and read the
description back, failing with DataError on an empty description. -/
def fetchPatternDescriptions :
    List OssmPattern → List Command × Option OssmError × List OssmPattern
  | [] => ([], none, [])
  | p :: ps =>
    if p.description = "" then
      ([.writePatternDescriptionCmd p.idx], some .dataError, [])
    else
      let r := fetchPatternDescriptions ps
      (.writePatternDescriptionCmd p.idx :: r.1, r.2.1, p :: r.2.2)

/-- getPatternList (src/ossmBle.ts): read the pattern-list characteristic,
fetch each description, and cache the assembled list. -/
def getPatternListOp (st : ClientState) : OpResult :=
  if st.isReady = false then ⟨st, [], some .invalidState⟩
  else
    let r := fetchPatternDescriptions st.devicePatterns
    match r.2.1 with
    | some e => ⟨st, .readPatternListCmd :: r.1, some e⟩
    | none =>
      ⟨{ st with cachedPatternList := some r.2.2 }, .readPatternListCmd :: r.1, none⟩

/-- setPattern (src/ossmBle.ts): validate a non-negative integer, fetch the
pattern list if it is not cached, check membership, short-circuit on the
cached value, then register the pending target, send and clear it. -/
def setPattern (st : ClientState) (patternId : ℚ) : OpResult :=
  if patternId < 0 ∨ patternId.den ≠ 1 then ⟨st, [], some .rangeError⟩
  else
    let v : ℤ := patternId.num
    let r1 : OpResult :=
      if st.cachedPatternList = none then getPatternListOp st else ⟨st, [], none⟩
    match r1.err with
    | some e => ⟨r1.state, r1.sent, some e⟩
    | none =>
      let missing : Bool :=
        match r1.state.cachedPatternList with
        | some l => (l.find? (fun p => p.idx == v)).isNone
        | none => false
      if missing then
        ⟨r1.state, r1.sent, some .rangeError⟩
      else if r1.state.cachedState.map OssmState.pattern = some v then
        ⟨r1.state, r1.sent, none⟩
      else
        let st2 : ClientState :=
          { r1.state with
            pendingStateTarget := r1.state.pendingStateTarget.set .pattern (.num v) }
        let sc := sendCommand st2 (.setPatternCmd v)
        ⟨{ st2 with pendingStateTarget := st2.pendingStateTarget.erase .pattern },
         r1.sent ++ sc.1, sc.2⟩

/-- Result of stop: whether the task queue was cleared, the raw writes
performed, and the error thrown. -/
structure StopResult where
  state : ClientState
  clearedQueue : Bool
  sent : List Command
  err : Option OssmError

/-- stop (src/ossmBle.ts): a silent no-op when not ready, otherwise clear the
queue and enqueue a raw zero-speed write with no readback. -/
def stop (st : ClientState) : StopResult :=
  if st.isReady = false then ⟨st, false, [], none⟩
  else ⟨st, true, [.rawWrite ("set:speed:0")], none⟩

/-- The page prefix of a status string (getCurrentPage, src/ossmBle.ts): the
part before the first dot when a dot is present, the whole string otherwise. -/
def statusMainPart (status : String) : String :=
  if status.toList.contains ('.') then
    String.mk (status.toList.takeWhile (fun c => c != '.'))
  else status

/-- The sanity check of getCurrentPage: recognise a page identifier string
(the values of the OssmPage enum, in declaration order). -/
def pageOfString (s : String) : Option OssmPage :=
  if s = "simplePenetration" then some .simplePenetration
  else if s = "strokeEngine" then some .strokeEngine
  else if s = "menu" then some .menu
  else none

/-- getCurrentPage (src/ossmBle.ts): fail with InvalidState when no state is
available, with DataError on an unknown page prefix. -/
def getCurrentPage (state : Option OssmState) : Except OssmError OssmPage :=
  match state with
  | none => .error .invalidState
  | some s =>
    match pageOfString (statusMainPart s.status) with
    | some p => .ok p
    | none => .error .dataError

/-- The node a queued breadth-first-search path currently ends at
(path[path.length - 1] in the source; queued paths are never empty). -/
def bfsPathNode (path : List OssmPage) : OssmPage := path.getLastD OssmPage.menu

/-- The inner neighbour loop of the breadth-first search in navigateTo:
skip visited nodes, return the completed path as soon as the target is found,
otherwise mark the neighbour visited and enqueue the extended path. -/
def bfsExpand (g : OssmPage → List OssmPage) (target : OssmPage)
    (path : List OssmPage) :
    List OssmPage → Finset OssmPage → List (List OssmPage) →
      List OssmPage ⊕ (Finset OssmPage × List (List OssmPage))
  | [], visited, queue => Sum.inr (visited, queue)
  | next :: ns, visited, queue =>
    if next ∈ visited then bfsExpand g target path ns visited queue
    else if next = target then Sum.inl (path ++ [next])
    else bfsExpand g target path ns (insert next visited) (queue ++ [path ++ [next]])

/-- The outer loop of the breadth-first search in navigateTo: pop the next
path, expand it over the graph, and either return the found path or continue.
Termination: each enqueued path marks a fresh node visited, and there are only
three pages. -/
def bfsLoop (g : OssmPage → List OssmPage) (target : OssmPage)
    (visited : Finset OssmPage) (queue : List (List OssmPage)) :
    Option (List OssmPage) :=
  match queue with
  | [] => none
  | path :: rest =>
    match h : bfsExpand g target path (g (bfsPathNode path)) visited rest with
    | Sum.inl found => some found
    | Sum.inr (v', q') => bfsLoop g target v' q'
termination_by queue.length + 4 * (3 - visited.card)
decreasing_by
  have key : ∀ (ns : List OssmPage) (vis : Finset OssmPage)
      (qu : List (List OssmPage)) (v₂ : Finset OssmPage) (q₂ : List (List OssmPage)),
      bfsExpand g target path ns vis qu = Sum.inr (v₂, q₂) →
      q₂.length + 4 * (3 - v₂.card) ≤ qu.length + 4 * (3 - vis.card) := by
    intro ns
    induction ns with
    | nil =>
      intro vis qu v₂ q₂ hh
      simp only [bfsExpand, Sum.inr.injEq, Prod.mk.injEq] at hh
      obtain ⟨rfl, rfl⟩ := hh
      omega
    | cons n ns ih =>
      intro vis qu v₂ q₂ hh
      simp only [bfsExpand] at hh
      split at hh
      · exact ih vis qu v₂ q₂ hh
      · split at hh
        · exact absurd hh (by simp)
        · have hmem : n ∉ vis := by assumption
          have hcard : (insert n vis).card = vis.card + 1 :=
            Finset.card_insert_of_not_mem hmem
          have hle : vis.card ≤ 2 := by
            have h1 := Finset.card_le_univ (insert n vis)
            have h2 : Fintype.card OssmPage = 3 := by decide
            omega
          have h3 := ih (insert n vis) (qu ++ [path ++ [n]]) v₂ q₂ hh
          simp only [List.length_append, List.length_cons, List.length_nil] at h3
          omega
  have h4 := key (g (bfsPathNode path)) visited rest v' q' h
  simp only [List.length_cons]
  omega

/-- The pure part of navigateTo (src/ossmBle.ts): which pages are targeted by
the go commands the call issues, given the current page.  Empty when already
there; a single hop on a direct edge; the tail of the breadth-first-search
path otherwise; InvalidState when the search exhausts the graph. -/
def navCommands (g : OssmPage → List OssmPage) (currentPage page : OssmPage) :
    Except OssmError (List OssmPage) :=
  if currentPage = page then .ok []
  else if page ∈ g currentPage then .ok [page]
  else
    match bfsLoop g page {currentPage} [[currentPage]] with
    | some path => .ok (path.drop 1)
    | none => .error .invalidState

/-- The send loop of navigateTo: one awaited go command per hop, stopping at
the first failure. -/
def sendGoSequence (st : ClientState) :
    List OssmPage → List Command × Option OssmError
  | [] => ([], none)
  | p :: ps =>
    match sendCommand st (.goCmd p) with
    | (cs, some e) => (cs, some e)
    | (cs, none) =>
      let r := sendGoSequence st ps
      (cs ++ r.1, r.2)

/-- navigateTo (src/ossmBle.ts) against the fixed navigation graph: resolve
the current page from the cached state, plan the hops, send the go commands. -/
def navigateTo (st : ClientState) (page : OssmPage) :
    List Command × Option OssmError :=
  match getCurrentPage st.cachedState with
  | .error e => ([], some e)
  | .ok currentPage =>
    match navCommands OSSM_PAGE_NAVIGATION_GRAPH currentPage page with
    | .ok pages => sendGoSequence st pages
    | .error e => ([], some e)

/-- Reachability in a page graph: the target can be reached from the start by
following edges. -/
def PageReachable (g : OssmPage → List OssmPage) (start target : OssmPage) : Prop :=
  Relation.ReflTransGen (fun a b => b ∈ g a) start target

/-- isIntermediateValue (src/ossmBle.ts): the known off-by-one transitional
echo, recognised for numeric fields only. -/
def isIntermediateValue (incoming expected : FieldVal) : Bool :=
  match incoming, expected with
  | .num i, .num e => i == e - 1
  | _, _ => false

/-- The pending-target pass of onCurrentStateChanged, iterating the keys of
the pending map in order: a key whose field did not change is kept; a reached
target is deleted; an off-by-one intermediate echo aborts the whole pass (the
Bool result), keeping that entry and all later ones; any other change means
the field was externally superseded and the entry is deleted. -/
def reconcilePendingTargets (changed : OssmField → Option FieldVal) :
    PendingTargets → PendingTargets × Bool
  | [] => ([], false)
  | (k, tgt) :: rest =>
    match changed k with
    | none =>
      let r := reconcilePendingTargets changed rest
      ((k, tgt) :: r.1, r.2)
    | some cv =>
      if cv = tgt then reconcilePendingTargets changed rest
      else if isIntermediateValue cv tgt then ((k, tgt) :: rest, true)
      else reconcilePendingTargets changed rest

/-- onCurrentStateChanged (src/ossmBle.ts), given an already-remapped incoming
snapshot.  Returns the updated client state and whether a StateChanged event
was dispatched.  Heartbeats with no changed field are discarded; while the
pending pass leaves targets outstanding the push is withheld; otherwise the
snapshot is adopted and the event fires. -/
def onCurrentStateChanged (st : ClientState) (incoming : OssmState) :
    ClientState × Bool :=
  let changed : OssmField → Option FieldVal := fun k =>
    match st.cachedState with
    | none => some (incoming.get k)
    | some old => if incoming.get k ≠ old.get k then some (incoming.get k) else none
  if ossmFields.all (fun k => (changed k).isNone) then (st, false)
  else
    let r := reconcilePendingTargets changed st.pendingStateTarget
    if r.2 then ({ st with pendingStateTarget := r.1 }, false)
    else if r.1 ≠ [] then ({ st with pendingStateTarget := r.1 }, false)
    else
      ({ st with pendingStateTarget := r.1, cachedState := some incoming }, true)

/-- A sequence of status pushes processed by onCurrentStateChanged. -/
def processPushes (st : ClientState) : List OssmState → ClientState
  | [] => st
  | p :: ps => processPushes (onCurrentStateChanged st p).1 ps

/-- Sequencing of awaited calls inside a try block: stop at the first error,
concatenating the writes performed so far. -/
def opSeq (r : OpResult) (f : ClientState → OpResult) : OpResult :=
  match r.err with
  | some _ => r
  | none =>
    let r2 := f r.state
    ⟨r2.state, r.sent ++ r2.sent, r2.err⟩

/-- The pending-target pre-registration of runStrokeEnginePattern: a target is
registered for a field only when the captured value differs. -/
def registerPendingIfChanged (st : ClientState) (k : OssmField)
    (captured target : ℤ) : ClientState :=
  if captured ≠ target then
    { st with pendingStateTarget := st.pendingStateTarget.set k (.num target) }
  else st

/-- The finally block of runStrokeEnginePattern: delete all five pending
targets. -/
def clearRunPendings (st : ClientState) : ClientState :=
  { st with
    pendingStateTarget :=
      ((((st.pendingStateTarget.erase .pattern).erase .speed).erase
        .stroke).erase .depth).erase .sensation }

/-- runStrokeEnginePattern (src/ossmBle.ts): capture the state, require the
stroke-engine page, pre-register pending targets for every field that will
change, switch pattern if needed, then apply the four primitive setters in the
order picked by the jerk-avoidance policy, finally clearing the pending
targets.  A client with no cached state never resolves getState; that blocked
call is modelled as a Timeout failure. -/
def runStrokeEnginePattern (st : ClientState) (data : OssmPlayData) : OpResult :=
  let min := data.depth - data.stroke
  match st.cachedState with
  | none => ⟨st, [], some .timeout⟩
  | some capturedState =>
    match getCurrentPage (some capturedState) with
    | .error e => ⟨st, [], some e⟩
    | .ok currentPage =>
      let currentPattern := capturedState.pattern
      let oldMin := capturedState.depth - capturedState.stroke
      let oldMax := capturedState.depth
      let oldSpeed := capturedState.speed
      if currentPage ≠ OssmPage.strokeEngine then ⟨st, [], some .invalidState⟩
      else
        let st0 := registerPendingIfChanged st .pattern capturedState.pattern data.pattern
        let st1 := registerPendingIfChanged st0 .speed capturedState.speed data.speed
        let st2 := registerPendingIfChanged st1 .stroke capturedState.stroke data.stroke
        let st3 := registerPendingIfChanged st2 .depth capturedState.depth data.depth
        let st4 := registerPendingIfChanged st3 .sensation capturedState.sensation data.sensation
        let body :=
          opSeq (if currentPattern ≠ data.pattern
                 then setPattern st4 (Rat.ofInt data.pattern)
                 else ⟨st4, [], none⟩) (fun s =>
            if data.speed < oldSpeed then
              opSeq (setSpeed s (Rat.ofInt data.speed)) (fun s1 =>
                opSeq (setDepth s1 (Rat.ofInt data.depth)) (fun s2 =>
                  opSeq (setStroke s2 (Rat.ofInt data.stroke)) (fun s3 =>
                    setSensation s3 (Rat.ofInt data.sensation))))
            else if oldSpeed < data.speed ∧ (min < oldMin ∨ oldMax < data.depth) then
              opSeq (setDepth s (Rat.ofInt data.depth)) (fun s1 =>
                opSeq (setStroke s1 (Rat.ofInt data.stroke)) (fun s2 =>
                  opSeq (setSpeed s2 (Rat.ofInt data.speed)) (fun s3 =>
                    setSensation s3 (Rat.ofInt data.sensation))))
            else
              opSeq (setDepth s (Rat.ofInt data.depth)) (fun s1 =>
                opSeq (setStroke s1 (Rat.ofInt data.stroke)) (fun s2 =>
                  opSeq (setSpeed s2 (Rat.ofInt data.speed)) (fun s3 =>
                    setSensation s3 (Rat.ofInt data.sensation)))))
        ⟨clearRunPendings body.state, body.sent, body.err⟩

/-- A unit of work sitting in the AsyncFunctionQueue (src/helpers.ts): its
identity and the generation token it captured when enqueued. -/
structure QTask where
  id : ℕ
  captured : ℕ
deriving DecidableEq, Repr

/-- The observable state of an AsyncFunctionQueue: the current generation
token, the enqueued-but-not-yet-started units in order, and the id the next
enqueue will use. -/
structure QState where
  generation : ℕ
  pending : List QTask
  nextId : ℕ
deriving DecidableEq, Repr

/-- The events the queue reacts to: a new enqueue, a clearQueue call, and the
promise chain reaching the next queued unit. -/
inductive QEvent where
  | enqueueEv
  | clearQueueEv
  | runNextEv
deriving DecidableEq, Repr

/-- What happens when a queued unit's turn arrives: its function body runs, or
it throws the queue-cleared AbortError without running. -/
inductive QOutcome where
  | executed (id : ℕ)
  | aborted (id : ℕ)
deriving DecidableEq, Repr

/-- enqueue (src/helpers.ts): the unit captures the current generation. -/
def qEnqueue (s : QState) : QState :=
  { s with pending := s.pending ++ [⟨s.nextId, s.generation⟩],
           nextId := s.nextId + 1 }

/-- clearQueue (src/helpers.ts): bump the generation token (the abort of the
in-flight unit and the chain reset do not affect queued units, which remain
scheduled on the old promise chain). -/
def qClearQueue (s : QState) : QState :=
  { s with generation := s.generation + 1 }

/-- The head task's turn arrives: it compares its captured generation with the
current one and either throws the AbortError or executes its function body. -/
def qRunNext (s : QState) : QState × Option QOutcome :=
  match s.pending with
  | [] => (s, none)
  | t :: rest =>
    ({ s with pending := rest },
     some (if t.captured ≠ s.generation then .aborted t.id else .executed t.id))

/-- One step of the queue. -/
def qStep (s : QState) : QEvent → QState × Option QOutcome
  | .enqueueEv => (qEnqueue s, none)
  | .clearQueueEv => (qClearQueue s, none)
  | .runNextEv => qRunNext s

/-- Run a sequence of queue events, collecting the outcomes of the units whose
turn arrived. -/
def qRun (s : QState) : List QEvent → QState × List QOutcome
  | [] => (s, [])
  | e :: evs =>
    let r1 := qStep s e
    let r2 := qRun r1.1 evs
    (r2.1, r1.2.toList ++ r2.2)

/-- Well-formedness of a queue state: every queued unit captured a generation
no newer than the current one and has an id below the next fresh id.  This
holds for every state the implementation can reach, because enqueue captures
the current generation and the generation only grows. -/
def QWF (s : QState) : Prop :=
  ∀ t ∈ s.pending, t.captured ≤ s.generation ∧ t.id < s.nextId

/-- Staleness of an id: the queue is well-formed, the id is not a future id,
and every queued unit bearing it captured a strictly older generation. -/
def QStale (i : ℕ) (s : QState) : Prop :=
  QWF s ∧ i < s.nextId ∧ ∀ t ∈ s.pending, t.id = i → t.captured < s.generation

/-- Math.round (n / 2) for an integer n, computed exactly: JavaScript rounds
half away from zero upward, i.e. floor (x + 1/2). -/
def mathRoundHalf (n : ℤ) : ℤ := (n + 1).fdiv 2

/-- The PatternHelper data (src/patterns.ts): constructor arguments plus the
derived OssmPlayData fields.  The speed is kept as the raw number, which the
constructor range-checks but never rounds or integrality-checks. -/
structure PatternHelper where
  patternId : ℤ
  minDepth : ℤ
  maxDepth : ℤ
  speed : ℚ
  intensity : Option ℤ
  invert : Option Bool
  pattern : ℤ
  depth : ℤ
  stroke : ℤ
  sensation : ℤ
deriving DecidableEq, Repr

/-- The two kinds of exception the PatternHelper constructor throws: a
RangeError from validation, or the plain Error demanding an intensity for
reversible patterns. -/
inductive PatternHelperError where
  | rangeError
  | intensityRequired
deriving DecidableEq, Repr

/-- The PatternHelper constructor (src/patterns.ts): validate patternId, the
depth bounds, their order and the speed range; derive pattern, depth and
stroke; validate and adopt the intensity as sensation when supplied; and remap
sensation around 50 when invert is supplied. -/
def mkPatternHelper (patternId minDepth maxDepth speed : ℚ)
    (intensity : Option ℚ) (invert : Option Bool) :
    Except PatternHelperError PatternHelper :=
  if patternId < 0 ∨ patternId.den ≠ 1 then .error .rangeError
  else if minDepth < 0 ∨ 100 < minDepth ∨ minDepth.den ≠ 1 then .error .rangeError
  else if maxDepth < 0 ∨ 100 < maxDepth ∨ maxDepth.den ≠ 1 then .error .rangeError
  else if maxDepth < minDepth then .error .rangeError
  else if speed < 0 ∨ 100 < speed then .error .rangeError
  else
    let pid := patternId.num
    let minD := minDepth.num
    let maxD := maxDepth.num
    match intensity with
    | none =>
      match invert with
      | none => .ok ⟨pid, minD, maxD, speed, none, none, pid, maxD, maxD - minD, 100⟩
      | some _ => .error .intensityRequired
    | some i =>
      if i < 0 ∨ 100 < i ∨ i.den ≠ 1 then .error .rangeError
      else
        let iv := i.num
        match invert with
        | none =>
          .ok ⟨pid, minD, maxD, speed, some iv, none, pid, maxD, maxD - minD, iv⟩
        | some b =>
          .ok ⟨pid, minD, maxD, speed, some iv, some b, pid, maxD, maxD - minD,
               if b then 50 - mathRoundHalf iv else 50 + mathRoundHalf iv⟩

/-- A device that always echoes every command back verbatim. -/
def echoResponder : Command → DeviceResponse := fun _ => DeviceResponse.echo

/-- A concrete snapshot on the stroke-engine page: speed 30, stroke 20,
sensation 50, depth 50 (so range 30..50), pattern 0. -/
def snapshotStrokeEngine : OssmState :=
  { status := "strokeEngine.idle", speed := 30, stroke := 20, sensation := 50,
    depth := 50, pattern := 0 }

/-- A ready client on the stroke-engine page with a cached pattern list. -/
def clientRisky : ClientState :=
  { isReady := true, cachedState := some snapshotStrokeEngine,
    pendingStateTarget := [],
    cachedPatternList := some [{ name := "SimpleStroke", idx := 0, description := "s" }],
    devicePatterns := [], respond := echoResponder }

/-- Play data that raises the speed to 80 and extends the depth beyond the old
maximum (new range 40..70 against old 30..50): the risky-extension branch. -/
def playRisky : OssmPlayData :=
  { speed := 80, stroke := 30, sensation := 60, depth := 70, pattern := 0 }

/-- A ready client whose pattern list has not been fetched yet, while the
device offers one pattern (index 0, the cached pattern). -/
def clientUncachedPatterns : ClientState :=
  { clientRisky with
    cachedPatternList := none,
    devicePatterns := [{ name := "SimpleStroke", idx := 0, description := "s" }] }

/-- A ready client currently on the menu page. -/
def clientOnMenu : ClientState :=
  { clientRisky with cachedState := some { snapshotStrokeEngine with status := "menu.idle" } }

/-- A ready client currently on the simple-penetration page. -/
def clientOnSimplePenetration : ClientState :=
  { clientRisky with
    cachedState := some { snapshotStrokeEngine with status := "simplePenetration.idle" } }

/-- A ready client holding one unresolved pending target (speed 80). -/
def clientWithPendingSpeed : ClientState :=
  { clientRisky with pendingStateTarget := [(.speed, .num 80)] }

/-- A client that is not ready (link down). -/
def clientNotReady : ClientState :=
  { clientRisky with isReady := false }

/-- A queue holding one not-yet-started unit that captured generation 0. -/
def qExampleState : QState :=
  { generation := 0, pending := [{ id := 0, captured := 0 }], nextId := 1 }

/-! Supporting lemmas. -/

theorem ofInt_den (v : ℤ) : (Rat.ofInt v).den = 1 := rfl

theorem ofInt_num (v : ℤ) : (Rat.ofInt v).num = v := rfl

theorem ofInt_lt_zero_iff (v : ℤ) : Rat.ofInt v < 0 ↔ v < 0 := by
  rw [Rat.ofInt_eq_cast]
  exact_mod_cast Int.cast_lt_zero

theorem hundred_lt_ofInt_iff (v : ℤ) : (100 : ℚ) < Rat.ofInt v ↔ 100 < v := by
  rw [Rat.ofInt_eq_cast]
  constructor
  · intro h
    exact_mod_cast h
  · intro h
    exact_mod_cast h

theorem ofInt_invalid_iff (v : ℤ) :
    (Rat.ofInt v < 0 ∨ 100 < Rat.ofInt v ∨ (Rat.ofInt v).den ≠ 1) ↔
      (v < 0 ∨ 100 < v) := by
  rw [ofInt_lt_zero_iff, hundred_lt_ofInt_iff, ofInt_den]
  simp

theorem ratDenOne_bounds {q : ℚ} (hden : q.den = 1) (h0 : 0 ≤ q) (h1 : q ≤ 100) :
    0 ≤ q.num ∧ q.num ≤ 100 := by
  have hq : (q.num : ℚ) = q := Rat.coe_int_num_of_den_eq_one hden
  constructor
  · exact_mod_cast hq ▸ h0
  · have : (q.num : ℚ) ≤ 100 := by rw [hq]; exact h1
    exact_mod_cast this

theorem setDepth_run (st : ClientState) (v : ℤ) (h0 : 0 ≤ v) (h1 : v ≤ 100)
    (hne : st.cachedState.map OssmState.depth ≠ some v) (hr : st.isReady = true) :
    setDepth st (Rat.ofInt v) =
      ⟨{ st with pendingStateTarget :=
           (st.pendingStateTarget.set .depth (.num v)).erase .depth },
       [.setDepthCmd (depthApiValue v)],
       match st.respond (.setDepthCmd (depthApiValue v)) with
       | .echo => none
       | .failed => some .operationError
       | .unexpected => some .dataError⟩ := by
  rw [setDepth, if_neg]
  · simp only [ofInt_num]
    rw [if_neg hne]
    simp only [sendCommand, hr]
    cases hresp : st.respond (.setDepthCmd (depthApiValue v)) <;> simp [hresp]
  · rw [ofInt_invalid_iff]
    omega

theorem setStroke_run (st : ClientState) (v : ℤ) (h0 : 0 ≤ v) (h1 : v ≤ 100)
    (hne : st.cachedState.map OssmState.stroke ≠ some v) (hr : st.isReady = true) :
    setStroke st (Rat.ofInt v) =
      ⟨{ st with pendingStateTarget :=
           (st.pendingStateTarget.set .stroke (.num v)).erase .stroke },
       [.setStrokeCmd (strokeApiValue v)],
       match st.respond (.setStrokeCmd (strokeApiValue v)) with
       | .echo => none
       | .failed => some .operationError
       | .unexpected => some .dataError⟩ := by
  rw [setStroke, if_neg]
  · simp only [ofInt_num]
    rw [if_neg hne]
    simp only [sendCommand, hr]
    cases hresp : st.respond (.setStrokeCmd (strokeApiValue v)) <;> simp [hresp]
  · rw [ofInt_invalid_iff]
    omega

theorem setSensation_run (st : ClientState) (v : ℤ) (h0 : 0 ≤ v) (h1 : v ≤ 100)
    (hne : st.cachedState.map OssmState.sensation ≠ some v) (hr : st.isReady = true) :
    setSensation st (Rat.ofInt v) =
      ⟨{ st with pendingStateTarget :=
           (st.pendingStateTarget.set .sensation (.num v)).erase .sensation },
       [.setSensationCmd (sensationApiValue v)],
       match st.respond (.setSensationCmd (sensationApiValue v)) with
       | .echo => none
       | .failed => some .operationError
       | .unexpected => some .dataError⟩ := by
  rw [setSensation, if_neg]
  · simp only [ofInt_num]
    rw [if_neg hne]
    simp only [sendCommand, hr]
    cases hresp : st.respond (.setSensationCmd (sensationApiValue v)) <;> simp [hresp]
  · rw [ofInt_invalid_iff]
    omega

theorem setSpeed_run (st : ClientState) (v : ℤ) (h0 : 0 ≤ v) (h1 : v ≤ 100)
    (hne : st.cachedState.map OssmState.speed ≠ some v) (hr : st.isReady = true) :
    setSpeed st (Rat.ofInt v) =
      ⟨{ st with pendingStateTarget :=
           (st.pendingStateTarget.set .speed (.num v)).erase .speed },
       [.setSpeedCmd v],
       match st.respond (.setSpeedCmd v) with
       | .echo => none
       | .failed => some .operationError
       | .unexpected => some .dataError⟩ := by
  rw [setSpeed, if_neg]
  · simp only [ofInt_num]
    rw [if_neg hne]
    simp only [sendCommand, hr]
    cases hresp : st.respond (.setSpeedCmd v) <;> simp [hresp]
  · rw [ofInt_invalid_iff]
    omega

theorem setSpeed_noop (st : ClientState) (v : ℤ) (h0 : 0 ≤ v) (h1 : v ≤ 100)
    (heq : st.cachedState.map OssmState.speed = some v) :
    setSpeed st (Rat.ofInt v) = ⟨st, [], none⟩ := by
  rw [setSpeed, if_neg]
  · simp only [ofInt_num]
    rw [if_pos heq]
  · rw [ofInt_invalid_iff]
    omega

theorem setStroke_noop (st : ClientState) (v : ℤ) (h0 : 0 ≤ v) (h1 : v ≤ 100)
    (heq : st.cachedState.map OssmState.stroke = some v) :
    setStroke st (Rat.ofInt v) = ⟨st, [], none⟩ := by
  rw [setStroke, if_neg]
  · simp only [ofInt_num]
    rw [if_pos heq]
  · rw [ofInt_invalid_iff]
    omega

theorem setDepth_noop (st : ClientState) (v : ℤ) (h0 : 0 ≤ v) (h1 : v ≤ 100)
    (heq : st.cachedState.map OssmState.depth = some v) :
    setDepth st (Rat.ofInt v) = ⟨st, [], none⟩ := by
  rw [setDepth, if_neg]
  · simp only [ofInt_num]
    rw [if_pos heq]
  · rw [ofInt_invalid_iff]
    omega

theorem setSensation_noop (st : ClientState) (v : ℤ) (h0 : 0 ≤ v) (h1 : v ≤ 100)
    (heq : st.cachedState.map OssmState.sensation = some v) :
    setSensation st (Rat.ofInt v) = ⟨st, [], none⟩ := by
  rw [setSensation, if_neg]
  · simp only [ofInt_num]
    rw [if_pos heq]
  · rw [ofInt_invalid_iff]
    omega

theorem setPattern_noop (st : ClientState) (v : ℤ) (h0 : 0 ≤ v)
    (l : List OssmPattern) (hl : st.cachedPatternList = some l)
    (hfind : (l.find? (fun p => p.idx == v)).isSome)
    (heq : st.cachedState.map OssmState.pattern = some v) :
    setPattern st (Rat.ofInt v) = ⟨st, [], none⟩ := by
  rw [setPattern, if_neg]
  · simp only [ofInt_num]
    have hnotnone : ¬ (st.cachedPatternList = none) := by rw [hl]; simp
    rw [if_neg hnotnone]
    simp only [hl]
    have hmiss : (l.find? (fun p => p.idx == v)).isNone = false := by
      rw [Option.isSome_iff_exists] at hfind
      obtain ⟨x, hx⟩ := hfind
      simp [hx]
    rw [hmiss]
    simp only [Bool.false_eq_true, if_false]
    rw [if_pos heq]
  · rw [ofInt_lt_zero_iff, ofInt_den]
    omega

theorem mathRoundHalf_eq_round (n : ℤ) : mathRoundHalf n = round ((n : ℚ) / 2) := by
  rw [mathRoundHalf, round_eq, Int.fdiv_eq_ediv _ (by norm_num)]
  have h1 : (n : ℚ) / 2 + 1 / 2 = ((n + 1 : ℤ) : ℚ) / ((2 : ℕ) : ℚ) := by
    push_cast
    ring
  rw [h1, Rat.floor_intCast_div_natCast]
  rfl

/-! Claim theorems. -/

/-- C9: when the client is not ready, stop() returns successfully without
clearing the task queue and without writing anything to the device: the
emergency stop is a silent no-op when disconnected rather than a not-ready
failure. -/
theorem stop_not_ready_noop (st : ClientState) (h : st.isReady = false) :
    stop st = ⟨st, false, [], none⟩ := by
  rw [stop, if_pos h]

theorem stop_not_ready_noop_witness :
    stop clientNotReady = ⟨clientNotReady, false, [], none⟩ :=
  stop_not_ready_noop clientNotReady rfl

/-- C6: setSpeed succeeds on every integer in 0..100 (on a ready client whose
device echoes), and on every out-of-range or non-integral argument it fails
with the RangeError before any transport write, leaving the pending-target
set and all other state unchanged. -/
theorem setSpeed_validation (st : ClientState) (q : ℚ) :
    ((0 ≤ q ∧ q ≤ 100 ∧ q.den = 1 ∧ st.isReady = true ∧
        (∀ c, st.respond c = DeviceResponse.echo)) →
      (setSpeed st q).err = none) ∧
    ((q < 0 ∨ 100 < q ∨ q.den ≠ 1) →
      setSpeed st q = ⟨st, [], some .rangeError⟩) := by
  constructor
  · rintro ⟨h0, h1, hden, hr, hecho⟩
    have hnv : ¬ (q < 0 ∨ 100 < q ∨ q.den ≠ 1) := by
      push_neg
      exact ⟨h0, h1, hden⟩
    rw [setSpeed, if_neg hnv]
    by_cases hc : st.cachedState.map OssmState.speed = some q.num
    · rw [if_pos hc]
    · rw [if_neg hc]
      simp [sendCommand, hr, hecho]
  · intro h
    rw [setSpeed, if_pos h]

theorem setSpeed_validation_witness :
    (setSpeed clientRisky (Rat.ofInt 50)).err = none ∧
    setSpeed clientRisky (⟨1, 2, by decide, by decide⟩ : ℚ) =
      ⟨clientRisky, [], some .rangeError⟩ :=
  ⟨(setSpeed_validation clientRisky (Rat.ofInt 50)).1
      ⟨by decide, by decide, rfl, rfl, fun _ => rfl⟩,
   (setSpeed_validation clientRisky (⟨1, 2, by decide, by decide⟩ : ℚ)).2
      (by decide)⟩

/-- C4: for every integer v in 1..99, setStroke, setDepth and setSensation
send a command whose payload is v - 1; for v equal to 0 or 100 the payload is
v unmodified.  (The command is sent when the cached value differs; otherwise
the setter short-circuits and nothing is sent at all.) -/
theorem setter_firmware_compensation (st : ClientState) (v : ℤ)
    (hr : st.isReady = true) :
    (1 ≤ v ∧ v ≤ 99 →
      (st.cachedState.map OssmState.stroke ≠ some v →
        (setStroke st (Rat.ofInt v)).sent = [.setStrokeCmd (v - 1)]) ∧
      (st.cachedState.map OssmState.depth ≠ some v →
        (setDepth st (Rat.ofInt v)).sent = [.setDepthCmd (v - 1)]) ∧
      (st.cachedState.map OssmState.sensation ≠ some v →
        (setSensation st (Rat.ofInt v)).sent = [.setSensationCmd (v - 1)])) ∧
    (v = 0 ∨ v = 100 →
      (st.cachedState.map OssmState.stroke ≠ some v →
        (setStroke st (Rat.ofInt v)).sent = [.setStrokeCmd v]) ∧
      (st.cachedState.map OssmState.depth ≠ some v →
        (setDepth st (Rat.ofInt v)).sent = [.setDepthCmd v]) ∧
      (st.cachedState.map OssmState.sensation ≠ some v →
        (setSensation st (Rat.ofInt v)).sent = [.setSensationCmd v])) := by
  constructor
  · rintro ⟨ha, hb⟩
    have hstrk : strokeApiValue v = v - 1 := by
      rw [strokeApiValue, if_pos (by omega : 0 < v ∧ v < 100)]
    have hdep : depthApiValue v = v - 1 := by
      rw [depthApiValue, if_pos (by omega : 0 < v ∧ v < 100)]
    have hsen : sensationApiValue v = v - 1 := by
      rw [sensationApiValue, if_pos (by omega : 0 < v ∧ v < 100)]
    refine ⟨fun hne => ?_, fun hne => ?_, fun hne => ?_⟩
    · rw [setStroke_run st v (by omega) (by omega) hne hr, hstrk]
    · rw [setDepth_run st v (by omega) (by omega) hne hr, hdep]
    · rw [setSensation_run st v (by omega) (by omega) hne hr, hsen]
  · intro hv
    have hstrk : strokeApiValue v = v := by
      rw [strokeApiValue, if_neg (by omega : ¬ (0 < v ∧ v < 100))]
    have hdep : depthApiValue v = v := by
      rw [depthApiValue, if_neg (by omega : ¬ (0 < v ∧ v < 100))]
    have hsen : sensationApiValue v = v := by
      rw [sensationApiValue, if_neg (by omega : ¬ (0 < v ∧ v < 100))]
    refine ⟨fun hne => ?_, fun hne => ?_, fun hne => ?_⟩
    · rw [setStroke_run st v (by omega) (by omega) hne hr, hstrk]
    · rw [setDepth_run st v (by omega) (by omega) hne hr, hdep]
    · rw [setSensation_run st v (by omega) (by omega) hne hr, hsen]

theorem setter_firmware_compensation_witness :
    (setStroke clientRisky (Rat.ofInt 30)).sent = [.setStrokeCmd 29] ∧
    (setDepth clientRisky (Rat.ofInt 100)).sent = [.setDepthCmd 100] :=
  ⟨((setter_firmware_compensation clientRisky 30 rfl).1 (by decide)).1 (by decide),
   ((setter_firmware_compensation clientRisky 100 rfl).2 (by decide)).2.1 (by decide)⟩

/-- C7 counterexample: the claim that every setter called with the cached
value performs no transport write fails for setPattern.  On a client whose
pattern list has not been fetched, setPattern of the cached pattern index
first fetches the pattern list, reading the pattern-list characteristic and
writing each index to the pattern-description characteristic, before its
idempotence short-circuit runs. -/
theorem setPattern_idempotent_counterexample :
    clientUncachedPatterns.cachedState.map OssmState.pattern = some 0 ∧
    (setPattern clientUncachedPatterns (Rat.ofInt 0)).sent =
      [.readPatternListCmd, .writePatternDescriptionCmd 0] ∧
    (setPattern clientUncachedPatterns (Rat.ofInt 0)).sent ≠ [] ∧
    (setPattern clientUncachedPatterns (Rat.ofInt 0)).err = none := by
  refine ⟨rfl, rfl, by decide, rfl⟩

/-- C7 (amended): a setter called with a valid value equal to the cached
state's field returns successfully, performs no transport write, and
registers no pending target — with the proviso that setPattern additionally
needs the pattern list to be already cached and to contain the value
(otherwise it first fetches the list over the transport, as the
counterexample shows). -/
theorem setters_idempotent_no_write (st : ClientState) (v : ℤ)
    (h0 : 0 ≤ v) (h1 : v ≤ 100) :
    (st.cachedState.map OssmState.speed = some v →
      setSpeed st (Rat.ofInt v) = ⟨st, [], none⟩) ∧
    (st.cachedState.map OssmState.stroke = some v →
      setStroke st (Rat.ofInt v) = ⟨st, [], none⟩) ∧
    (st.cachedState.map OssmState.depth = some v →
      setDepth st (Rat.ofInt v) = ⟨st, [], none⟩) ∧
    (st.cachedState.map OssmState.sensation = some v →
      setSensation st (Rat.ofInt v) = ⟨st, [], none⟩) ∧
    (∀ l, st.cachedPatternList = some l →
      (l.find? (fun p => p.idx == v)).isSome →
      st.cachedState.map OssmState.pattern = some v →
      setPattern st (Rat.ofInt v) = ⟨st, [], none⟩) :=
  ⟨fun h => setSpeed_noop st v h0 h1 h,
   fun h => setStroke_noop st v h0 h1 h,
   fun h => setDepth_noop st v h0 h1 h,
   fun h => setSensation_noop st v h0 h1 h,
   fun l hl hf hp => setPattern_noop st v h0 l hl hf hp⟩

theorem setters_idempotent_no_write_witness :
    setSpeed clientRisky (Rat.ofInt 30) = ⟨clientRisky, [], none⟩ ∧
    setPattern clientRisky (Rat.ofInt 0) = ⟨clientRisky, [], none⟩ :=
  ⟨(setters_idempotent_no_write clientRisky 30 (by decide) (by decide)).1 rfl,
   (setters_idempotent_no_write clientRisky 0 (by decide) (by decide)).2.2.2.2
      [{ name := "SimpleStroke", idx := 0, description := "s" }] rfl (by decide) rfl⟩

/-- C10 counterexample: the PatternHelper constructor does not reject a
non-integral speed — it only range-checks the speed — so the claim that every
non-integral speed throws a RangeError is false: one half is accepted. -/
theorem patternHelper_nonintegral_speed_counterexample :
    (⟨1, 2, by decide, by decide⟩ : ℚ).den ≠ 1 ∧
    (0 : ℚ) ≤ (⟨1, 2, by decide, by decide⟩ : ℚ) ∧
    (⟨1, 2, by decide, by decide⟩ : ℚ) ≤ 100 ∧
    mkPatternHelper (Rat.ofInt 0) (Rat.ofInt 0) (Rat.ofInt 100)
      (⟨1, 2, by decide, by decide⟩ : ℚ) none none =
      .ok ⟨0, 0, 100, (⟨1, 2, by decide, by decide⟩ : ℚ), none, none,
           0, 100, 100, 100⟩ :=
  ⟨by decide, by decide, by decide, rfl⟩

/-- C10 (amended): the PatternHelper constructor throws a RangeError whenever
minDepth exceeds maxDepth, and whenever patternId, minDepth, maxDepth or a
supplied intensity is out of range or non-integral, and whenever the speed is
out of range — the speed is only range-checked, never integrality-checked, as
the counterexample shows.  Every successfully constructed helper has
stroke = maxDepth - minDepth, an integer in 0..100. -/
theorem patternHelper_validation (patternId minDepth maxDepth speed : ℚ)
    (intensity : Option ℚ) (invert : Option Bool) :
    (maxDepth < minDepth →
      mkPatternHelper patternId minDepth maxDepth speed intensity invert =
        .error .rangeError) ∧
    ((patternId < 0 ∨ patternId.den ≠ 1) →
      mkPatternHelper patternId minDepth maxDepth speed intensity invert =
        .error .rangeError) ∧
    ((minDepth < 0 ∨ 100 < minDepth ∨ minDepth.den ≠ 1) →
      mkPatternHelper patternId minDepth maxDepth speed intensity invert =
        .error .rangeError) ∧
    ((maxDepth < 0 ∨ 100 < maxDepth ∨ maxDepth.den ≠ 1) →
      mkPatternHelper patternId minDepth maxDepth speed intensity invert =
        .error .rangeError) ∧
    ((speed < 0 ∨ 100 < speed) →
      mkPatternHelper patternId minDepth maxDepth speed intensity invert =
        .error .rangeError) ∧
    (∀ i, intensity = some i → (i < 0 ∨ 100 < i ∨ i.den ≠ 1) →
      mkPatternHelper patternId minDepth maxDepth speed intensity invert =
        .error .rangeError) ∧
    (∀ ph, mkPatternHelper patternId minDepth maxDepth speed intensity invert =
        .ok ph →
      ph.stroke = ph.maxDepth - ph.minDepth ∧ 0 ≤ ph.stroke ∧ ph.stroke ≤ 100) := by
  refine ⟨?_, ?_, ?_, ?_, ?_, ?_, ?_⟩
  · intro h
    rw [mkPatternHelper]
    split_ifs <;> first | rfl | exact absurd h (by assumption)
  · intro h
    rw [mkPatternHelper]
    split_ifs <;> first | rfl | exact absurd h (by assumption)
  · intro h
    rw [mkPatternHelper]
    split_ifs <;> first | rfl | exact absurd h (by assumption)
  · intro h
    rw [mkPatternHelper]
    split_ifs <;> first | rfl | exact absurd h (by assumption)
  · intro h
    rw [mkPatternHelper]
    split_ifs <;> first | rfl | exact absurd h (by assumption)
  · intro i hi h
    subst hi
    rw [mkPatternHelper]
    split_ifs <;> first | rfl | skip
    simp only []
    rw [if_pos h]
  · intro ph h
    rw [mkPatternHelper] at h
    by_cases h1 : patternId < 0 ∨ patternId.den ≠ 1
    · rw [if_pos h1] at h
      exact absurd h (by simp)
    rw [if_neg h1] at h
    by_cases h2 : minDepth < 0 ∨ 100 < minDepth ∨ minDepth.den ≠ 1
    · rw [if_pos h2] at h
      exact absurd h (by simp)
    rw [if_neg h2] at h
    by_cases h3 : maxDepth < 0 ∨ 100 < maxDepth ∨ maxDepth.den ≠ 1
    · rw [if_pos h3] at h
      exact absurd h (by simp)
    rw [if_neg h3] at h
    by_cases h4 : maxDepth < minDepth
    · rw [if_pos h4] at h
      exact absurd h (by simp)
    rw [if_neg h4] at h
    by_cases h5 : speed < 0 ∨ 100 < speed
    · rw [if_pos h5] at h
      exact absurd h (by simp)
    rw [if_neg h5] at h
    push_neg at h2 h3 h4
    obtain ⟨hmin0, hmin1, hminden⟩ := h2
    obtain ⟨hmax0, hmax1, hmaxden⟩ := h3
    have hminq : (minDepth.num : ℚ) = minDepth := Rat.coe_int_num_of_den_eq_one hminden
    have hmaxq : (maxDepth.num : ℚ) = maxDepth := Rat.coe_int_num_of_den_eq_one hmaxden
    have hb1 : 0 ≤ minDepth.num := by
      have : (0 : ℚ) ≤ (minDepth.num : ℚ) := by rw [hminq]; exact hmin0
      exact_mod_cast this
    have hb2 : maxDepth.num ≤ 100 := by
      have : (maxDepth.num : ℚ) ≤ 100 := by rw [hmaxq]; exact hmax1
      exact_mod_cast this
    have hb3 : minDepth.num ≤ maxDepth.num := by
      have : (minDepth.num : ℚ) ≤ (maxDepth.num : ℚ) := by rw [hminq, hmaxq]; exact h4
      exact_mod_cast this
    have hfields : ph.stroke = maxDepth.num - minDepth.num ∧
        ph.maxDepth = maxDepth.num ∧ ph.minDepth = minDepth.num := by
      rcases intensity with _ | i
      · rcases invert with _ | b
        · simp only [] at h
          injection h with h
          subst h
          exact ⟨rfl, rfl, rfl⟩
        · simp only [] at h
          exact absurd h (by simp)
      · simp only [] at h
        by_cases h6 : i < 0 ∨ 100 < i ∨ i.den ≠ 1
        · rw [if_pos h6] at h
          exact absurd h (by simp)
        rw [if_neg h6] at h
        rcases invert with _ | b
        · simp only [] at h
          injection h with h
          subst h
          exact ⟨rfl, rfl, rfl⟩
        · simp only [] at h
          injection h with h
          subst h
          exact ⟨rfl, rfl, rfl⟩
    obtain ⟨hs, hmax, hmin⟩ := hfields
    refine ⟨by rw [hs, hmax, hmin], by omega, by omega⟩

theorem patternHelper_validation_witness :
    mkPatternHelper (Rat.ofInt 0) (Rat.ofInt 60) (Rat.ofInt 40) (Rat.ofInt 50)
      none none = .error .rangeError ∧
    mkPatternHelper (Rat.ofInt 0) (Rat.ofInt 0) (Rat.ofInt 100) (Rat.ofInt 200)
      none none = .error .rangeError :=
  ⟨(patternHelper_validation (Rat.ofInt 0) (Rat.ofInt 60) (Rat.ofInt 40)
      (Rat.ofInt 50) none none).1 (by decide),
   (patternHelper_validation (Rat.ofInt 0) (Rat.ofInt 0) (Rat.ofInt 100)
      (Rat.ofInt 200) none none).2.2.2.2.1 (by decide)⟩

/-- C8: the pattern-helper derivation maps pattern index, min and max depth,
speed, intensity and optional invert to the primitive play-data fields with
depth = max, stroke = max - min, and sensation equal to the intensity when
invert is unspecified, 50 + round (intensity / 2) when invert is false, and
50 - round (intensity / 2) when invert is true. -/
theorem patternHelper_derivation (pid minD maxD : ℤ) (speed : ℚ) (i : ℤ)
    (invert : Option Bool) (h0 : 0 ≤ pid) (h1 : 0 ≤ minD) (h2 : minD ≤ maxD)
    (h3 : maxD ≤ 100) (h4 : 0 ≤ speed) (h5 : speed ≤ 100)
    (h6 : 0 ≤ i) (h7 : i ≤ 100) :
    mkPatternHelper (Rat.ofInt pid) (Rat.ofInt minD) (Rat.ofInt maxD) speed
      (some (Rat.ofInt i)) invert =
      .ok { patternId := pid, minDepth := minD, maxDepth := maxD, speed := speed,
            intensity := some i, invert := invert, pattern := pid, depth := maxD,
            stroke := maxD - minD,
            sensation :=
              match invert with
              | none => i
              | some b =>
                if b then 50 - round ((i : ℚ) / 2) else 50 + round ((i : ℚ) / 2) } := by
  have hA : ¬ (Rat.ofInt pid < 0 ∨ (Rat.ofInt pid).den ≠ 1) := by
    rw [ofInt_lt_zero_iff, ofInt_den]
    simp
    omega
  have hB : ¬ (Rat.ofInt minD < 0 ∨ 100 < Rat.ofInt minD ∨ (Rat.ofInt minD).den ≠ 1) := by
    rw [ofInt_invalid_iff]
    omega
  have hC : ¬ (Rat.ofInt maxD < 0 ∨ 100 < Rat.ofInt maxD ∨ (Rat.ofInt maxD).den ≠ 1) := by
    rw [ofInt_invalid_iff]
    omega
  have hD : ¬ (Rat.ofInt maxD < Rat.ofInt minD) := by
    rw [Rat.ofInt_eq_cast, Rat.ofInt_eq_cast, Int.cast_lt]
    omega
  have hE : ¬ (speed < 0 ∨ 100 < speed) := by
    push_neg
    exact ⟨h4, h5⟩
  have hF : ¬ (Rat.ofInt i < 0 ∨ 100 < Rat.ofInt i ∨ (Rat.ofInt i).den ≠ 1) := by
    rw [ofInt_invalid_iff]
    omega
  rw [mkPatternHelper, if_neg hA, if_neg hB, if_neg hC, if_neg hD, if_neg hE]
  simp only [ofInt_num]
  rw [if_neg hF]
  rcases invert with _ | b
  · rfl
  · rcases b with _ | _
    · simp [mathRoundHalf_eq_round]
    · simp [mathRoundHalf_eq_round]

theorem patternHelper_derivation_witness :
    mkPatternHelper (Rat.ofInt 1) (Rat.ofInt 20) (Rat.ofInt 80) (Rat.ofInt 70)
      (some (Rat.ofInt 60)) none =
      .ok { patternId := 1, minDepth := 20, maxDepth := 80, speed := Rat.ofInt 70,
            intensity := some 60, invert := none, pattern := 1, depth := 80,
            stroke := 60, sensation := 60 } :=
  patternHelper_derivation 1 20 80 (Rat.ofInt 70) 60 none (by decide) (by decide)
    (by decide) (by decide) (by decide) (by decide) (by decide) (by decide)

theorem onCurrentStateChanged_withholds (st : ClientState) (incoming : OssmState)
    (h : (onCurrentStateChanged st incoming).1.pendingStateTarget ≠ []) :
    (onCurrentStateChanged st incoming).2 = false ∧
    (onCurrentStateChanged st incoming).1.cachedState = st.cachedState := by
  simp only [onCurrentStateChanged] at h ⊢
  split_ifs at h ⊢ with hA hB hC
  · exact ⟨rfl, rfl⟩
  · exact ⟨rfl, rfl⟩
  · exact ⟨rfl, rfl⟩
  · exact absurd h (by simpa using hC)

/-- C3: for every inbound status push, if after the reconciliation pass any
pending target remains, then no StateChanged event is dispatched and the
cached snapshot is not replaced — and this holds at every point of every
sequence of pushes. -/
theorem reconciler_withholds_publication (st : ClientState) (incoming : OssmState)
    (prior : List OssmState) :
    ((onCurrentStateChanged st incoming).1.pendingStateTarget ≠ [] →
      (onCurrentStateChanged st incoming).2 = false ∧
      (onCurrentStateChanged st incoming).1.cachedState = st.cachedState) ∧
    ((onCurrentStateChanged (processPushes st prior) incoming).1.pendingStateTarget ≠ [] →
      (onCurrentStateChanged (processPushes st prior) incoming).2 = false ∧
      (onCurrentStateChanged (processPushes st prior) incoming).1.cachedState =
        (processPushes st prior).cachedState) :=
  ⟨onCurrentStateChanged_withholds st incoming,
   onCurrentStateChanged_withholds (processPushes st prior) incoming⟩

theorem reconciler_withholds_publication_witness :
    (onCurrentStateChanged clientWithPendingSpeed
        { snapshotStrokeEngine with stroke := 25 }).1.pendingStateTarget ≠ [] ∧
    (onCurrentStateChanged clientWithPendingSpeed
        { snapshotStrokeEngine with stroke := 25 }).2 = false ∧
    (onCurrentStateChanged clientWithPendingSpeed
        { snapshotStrokeEngine with stroke := 25 }).1.cachedState =
      clientWithPendingSpeed.cachedState :=
  ⟨by decide,
   ((reconciler_withholds_publication clientWithPendingSpeed
      { snapshotStrokeEngine with stroke := 25 } []).1 (by decide)).1,
   ((reconciler_withholds_publication clientWithPendingSpeed
      { snapshotStrokeEngine with stroke := 25 } []).1 (by decide)).2⟩

theorem qStale_step (i : ℕ) (s : QState) (e : QEvent) (h : QStale i s) :
    QStale i (qStep s e).1 := by
  obtain ⟨hwf, hid, hst⟩ := h
  cases e with
  | enqueueEv =>
    refine ⟨?_, ?_, ?_⟩
    · intro t ht
      simp only [qStep, qEnqueue, List.mem_append, List.mem_singleton] at ht
      rcases ht with ht | rfl
      · have := hwf t ht
        simp only [qStep, qEnqueue]
        omega
      · simp only [qStep, qEnqueue]
        omega
    · simp only [qStep, qEnqueue]
      omega
    · intro t ht hti
      simp only [qStep, qEnqueue, List.mem_append, List.mem_singleton] at ht
      rcases ht with ht | rfl
      · exact hst t ht hti
      · exact absurd hti (by simp; omega)
  | clearQueueEv =>
    refine ⟨?_, ?_, ?_⟩
    · intro t ht
      have := hwf t ht
      simp only [qStep, qClearQueue] at *
      omega
    · simpa [qStep, qClearQueue] using hid
    · intro t ht hti
      have := hst t ht hti
      simp only [qStep, qClearQueue] at *
      omega
  | runNextEv =>
    rcases hp : s.pending with _ | ⟨t0, rest⟩
    · have hstep : qStep s .runNextEv = (s, none) := by
        simp [qStep, qRunNext, hp]
      rw [hstep]
      exact ⟨hwf, hid, hst⟩
    · have hstep : (qStep s .runNextEv).1 = { s with pending := rest } := by
        simp [qStep, qRunNext, hp]
      rw [hstep]
      refine ⟨?_, hid, ?_⟩
      · intro t ht
        exact hwf t (by rw [hp]; exact List.mem_cons_of_mem t0 ht)
      · intro t ht hti
        exact hst t (by rw [hp]; exact List.mem_cons_of_mem t0 ht) hti

theorem qStale_no_exec (i : ℕ) (s : QState) (e : QEvent) (h : QStale i s) :
    ∀ o, (qStep s e).2 = some o → o ≠ QOutcome.executed i := by
  obtain ⟨hwf, hid, hst⟩ := h
  intro o ho
  cases e with
  | enqueueEv => simp [qStep] at ho
  | clearQueueEv => simp [qStep] at ho
  | runNextEv =>
    rcases hp : s.pending with _ | ⟨t0, rest⟩
    · simp [qStep, qRunNext, hp] at ho
    · simp only [qStep, qRunNext, hp, Option.some.injEq] at ho
      subst ho
      by_cases hc : t0.captured = s.generation
      · rw [if_neg (by omega)]
        intro hcon
        injection hcon with hcon
        have := hst t0 (by rw [hp]; exact List.mem_cons_self t0 rest) hcon
        omega
      · rw [if_pos hc]
        simp

theorem qRun_no_exec (i : ℕ) (evs : List QEvent) (s : QState) (h : QStale i s) :
    QOutcome.executed i ∉ (qRun s evs).2 := by
  induction evs generalizing s with
  | nil => simp [qRun]
  | cons e evs ih =>
    simp only [qRun, List.mem_append]
    intro hmem
    rcases hmem with hmem | hmem
    · rcases ho : (qStep s e).2 with _ | o
      · rw [ho] at hmem
        simp at hmem
      · rw [ho] at hmem
        simp only [Option.toList_some, List.mem_singleton] at hmem
        exact qStale_no_exec i s e h o ho hmem.symm
    · exact ih (qStep s e).1 (qStale_step i s e h) hmem

theorem qRun_abort_or_pending (i : ℕ) (evs : List QEvent) (s : QState)
    (h : QStale i s) (hmem : ∃ t ∈ s.pending, t.id = i) :
    (∃ t ∈ (qRun s evs).1.pending, t.id = i) ∨
      QOutcome.aborted i ∈ (qRun s evs).2 := by
  induction evs generalizing s with
  | nil =>
    left
    simpa [qRun] using hmem
  | cons e evs ih =>
    obtain ⟨t, ht, hti⟩ := hmem
    obtain ⟨hwf, hid, hst⟩ := h
    have hnext : (∃ u ∈ (qStep s e).1.pending, u.id = i) ∨
        (qStep s e).2 = some (QOutcome.aborted i) := by
      cases e with
      | enqueueEv =>
        left
        exact ⟨t, by simp [qStep, qEnqueue, List.mem_append]; left; exact ht, hti⟩
      | clearQueueEv =>
        left
        exact ⟨t, by simpa [qStep, qClearQueue] using ht, hti⟩
      | runNextEv =>
        rcases hp : s.pending with _ | ⟨t0, rest⟩
        · rw [hp] at ht
          simp at ht
        · by_cases h0 : t0.id = i
          · right
            have hcap : t0.captured ≠ s.generation := by
              have := hst t0 (by rw [hp]; exact List.mem_cons_self t0 rest) h0
              omega
            simp [qStep, qRunNext, hp, if_pos hcap, h0]
          · left
            have htr : t ∈ rest := by
              rw [hp] at ht
              rcases List.mem_cons.mp ht with rfl | htr
              · exact absurd hti h0
              · exact htr
            refine ⟨t, ?_, hti⟩
            have hstep : (qStep s .runNextEv).1 = { s with pending := rest } := by
              simp [qStep, qRunNext, hp]
            rw [hstep]
            exact htr
    rcases hnext with ⟨u, hu, hui⟩ | habort
    · rcases ih (qStep s e).1 (qStale_step i s e ⟨hwf, hid, hst⟩) ⟨u, hu, hui⟩ with hl | hr
      · left
        simpa [qRun] using hl
      · right
        simp only [qRun, List.mem_append]
        right
        exact hr
    · right
      simp only [qRun, List.mem_append]
      left
      rw [habort]
      simp

/-- C2: every unit enqueued before a clearQueue call and not yet started never
has its function body executed: its captured generation token is stale, so
when its turn arrives (or once it is no longer queued) the only outcome it can
produce is the queue-cleared abort error. -/
theorem clearQueue_stale_never_executes (s : QState) (t : QTask)
    (evs : List QEvent) (hwf : QWF s) (hmem : t ∈ s.pending) :
    QOutcome.executed t.id ∉ (qRun (qClearQueue s) evs).2 ∧
    ((∀ u ∈ (qRun (qClearQueue s) evs).1.pending, u.id ≠ t.id) →
      QOutcome.aborted t.id ∈ (qRun (qClearQueue s) evs).2) := by
  have hstale : QStale t.id (qClearQueue s) := by
    refine ⟨?_, ?_, ?_⟩
    · intro u hu
      have := hwf u (by simpa [qClearQueue] using hu)
      simp only [qClearQueue]
      omega
    · have := hwf t hmem
      simp only [qClearQueue]
      omega
    · intro u hu hui
      have := hwf u (by simpa [qClearQueue] using hu)
      simp only [qClearQueue]
      omega
  refine ⟨qRun_no_exec t.id evs (qClearQueue s) hstale, fun hnone => ?_⟩
  rcases qRun_abort_or_pending t.id evs (qClearQueue s) hstale
      ⟨t, by simpa [qClearQueue] using hmem, rfl⟩ with hl | hr
  · obtain ⟨u, hu, hui⟩ := hl
    exact absurd hui (hnone u hu)
  · exact hr

theorem clearQueue_stale_never_executes_witness :
    QWF qExampleState ∧
    QOutcome.executed 0 ∉ (qRun (qClearQueue qExampleState) [.runNextEv]).2 ∧
    QOutcome.aborted 0 ∈ (qRun (qClearQueue qExampleState) [.runNextEv]).2 :=
  ⟨by unfold QWF; decide,
   (clearQueue_stale_never_executes qExampleState ⟨0, 0⟩ [.runNextEv]
      (by unfold QWF; decide) (by decide)).1,
   (clearQueue_stale_never_executes qExampleState ⟨0, 0⟩ [.runNextEv]
      (by unfold QWF; decide) (by decide)).2 (by decide)⟩

theorem bfsExpand_sound (g : OssmPage → List OssmPage) (target start : OssmPage)
    (path : List OssmPage) (ns : List OssmPage) (visited : Finset OssmPage)
    (queue : List (List OssmPage))
    (hns : ∀ n ∈ ns, n ∈ g (bfsPathNode path))
    (hpath : PageReachable g start (bfsPathNode path))
    (hq : ∀ p ∈ queue, PageReachable g start (bfsPathNode p)) :
    (∀ found, bfsExpand g target path ns visited queue = Sum.inl found →
      PageReachable g start target) ∧
    (∀ v' q', bfsExpand g target path ns visited queue = Sum.inr (v', q') →
      ∀ p ∈ q', PageReachable g start (bfsPathNode p)) := by
  induction ns generalizing visited queue with
  | nil =>
    refine ⟨fun found h => by simp [bfsExpand] at h, fun v' q' h => ?_⟩
    simp only [bfsExpand, Sum.inr.injEq, Prod.mk.injEq] at h
    obtain ⟨rfl, rfl⟩ := h
    exact hq
  | cons n ns ih =>
    have hn : n ∈ g (bfsPathNode path) := hns n (by simp)
    have hns2 : ∀ m ∈ ns, m ∈ g (bfsPathNode path) := fun m hm => hns m (by simp [hm])
    have hqext : ∀ p ∈ queue ++ [path ++ [n]], PageReachable g start (bfsPathNode p) := by
      intro p hp
      rcases List.mem_append.mp hp with hp | hp
      · exact hq p hp
      · simp only [List.mem_singleton] at hp
        subst hp
        have hlast : bfsPathNode (path ++ [n]) = n := by simp [bfsPathNode]
        rw [hlast]
        exact hpath.tail hn
    constructor
    · intro found h
      simp only [bfsExpand] at h
      split at h
      · exact (ih visited queue hns2 hq).1 found h
      · split at h
        · rename_i heq
          subst heq
          exact hpath.tail hn
        · exact (ih (insert n visited) (queue ++ [path ++ [n]]) hns2 hqext).1 found h
    · intro v' q' h
      simp only [bfsExpand] at h
      split at h
      · exact (ih visited queue hns2 hq).2 v' q' h
      · split at h
        · exact absurd h (by simp)
        · exact (ih (insert n visited) (queue ++ [path ++ [n]]) hns2 hqext).2 v' q' h

theorem bfsLoop_sound (g : OssmPage → List OssmPage) (target start : OssmPage)
    (visited : Finset OssmPage) (queue : List (List OssmPage))
    (hq : ∀ p ∈ queue, PageReachable g start (bfsPathNode p))
    (res : List OssmPage)
    (hrun : bfsLoop g target visited queue = some res) :
    PageReachable g start target := by
  induction visited, queue using bfsLoop.induct g target with
  | case1 visited =>
    simp [bfsLoop] at hrun
  | case2 visited path rest found hexp =>
    have hpath := hq path (by simp)
    exact (bfsExpand_sound g target start path _ visited rest (fun n hn => hn) hpath
      (fun p hp => hq p (by simp [hp]))).1 found hexp
  | case3 visited path rest v' q' hexp ih =>
    rw [bfsLoop] at hrun
    rw [hexp] at hrun
    have hpath := hq path (by simp)
    have hq2 := (bfsExpand_sound g target start path _ visited rest (fun n hn => hn)
      hpath (fun p hp => hq p (by simp [hp]))).2 v' q' hexp
    exact ih hq2 hrun

/-- C5: navigateTo issues exactly one go command when a direct edge exists
from the current page to the target (e.g. menu to strokeEngine); when no
direct edge exists it issues one go command per edge of the breadth-first
shortest path in order (simplePenetration to strokeEngine sends exactly two,
via menu); and it fails with the no-path InvalidState error whenever the
graph contains no path from the current page to the target. -/
theorem navigateTo_commands :
    (∀ current target : OssmPage, current ≠ target →
      target ∈ OSSM_PAGE_NAVIGATION_GRAPH current →
      navCommands OSSM_PAGE_NAVIGATION_GRAPH current target = .ok [target]) ∧
    navCommands OSSM_PAGE_NAVIGATION_GRAPH .simplePenetration .strokeEngine =
      .ok [.menu, .strokeEngine] ∧
    navigateTo clientOnMenu .strokeEngine = ([.goCmd .strokeEngine], none) ∧
    navigateTo clientOnSimplePenetration .strokeEngine =
      ([.goCmd .menu, .goCmd .strokeEngine], none) ∧
    (∀ (g : OssmPage → List OssmPage) (current target : OssmPage),
      ¬ PageReachable g current target →
      navCommands g current target = .error .invalidState) := by
  refine ⟨?_, ?_, ?_, ?_, ?_⟩
  · intro current target hne hmem
    rw [navCommands, if_neg hne, if_pos hmem]
  · simp [navCommands, bfsLoop, bfsExpand, bfsPathNode, OSSM_PAGE_NAVIGATION_GRAPH]
  · decide
  · simp [navigateTo, getCurrentPage, statusMainPart, pageOfString, navCommands,
      bfsLoop, bfsExpand, bfsPathNode, OSSM_PAGE_NAVIGATION_GRAPH, sendGoSequence,
      sendCommand, clientOnSimplePenetration, clientRisky, snapshotStrokeEngine,
      echoResponder]
  · intro g current target hnr
    have hne : current ≠ target := by
      intro he
      exact hnr (he ▸ Relation.ReflTransGen.refl)
    have hdir : ¬ (target ∈ g current) := by
      intro hmem
      exact hnr (Relation.ReflTransGen.single hmem)
    rcases hb : bfsLoop g target {current} [[current]] with _ | path
    · rw [navCommands, if_neg hne, if_neg hdir, hb]
    · refine absurd (bfsLoop_sound g target current {current} [[current]] ?_ path hb) hnr
      intro p hp
      simp only [List.mem_singleton] at hp
      subst hp
      exact Relation.ReflTransGen.refl

theorem navigateTo_commands_witness :
    navCommands OSSM_PAGE_NAVIGATION_GRAPH .menu .strokeEngine =
      .ok [.strokeEngine] ∧
    navCommands (fun _ => []) .menu .strokeEngine = .error .invalidState :=
  ⟨navigateTo_commands.1 .menu .strokeEngine (by decide) (by decide),
   navigateTo_commands.2.2.2.2 (fun _ => []) .menu .strokeEngine
     (by
       intro h
       rcases Relation.ReflTransGen.cases_head h with h | ⟨c, hc, _⟩
       · exact OssmPage.noConfusion h
       · simp at hc)⟩

/-- C1 counterexample: with cached speed 30 and target speed 80, new depth 70
beyond the old maximum 50 (the risky-extension branch), the writes issued are
depth, stroke, speed, sensation — the speed is raised after depth and stroke
but before sensation, so it is not the last write as the claim states. -/
theorem runStrokeEnginePattern_risky_counterexample :
    snapshotStrokeEngine.speed < playRisky.speed ∧
    snapshotStrokeEngine.depth < playRisky.depth ∧
    (runStrokeEnginePattern clientRisky playRisky).sent =
      [.setDepthCmd 69, .setStrokeCmd 29, .setSpeedCmd 80, .setSensationCmd 59] ∧
    (runStrokeEnginePattern clientRisky playRisky).sent.getLast? ≠
      some (.setSpeedCmd 80) ∧
    (runStrokeEnginePattern clientRisky playRisky).err = none := by
  decide

theorem opSeq_ok (s1 : ClientState) (cs : List Command)
    (f : ClientState → OpResult) :
    opSeq ⟨s1, cs, none⟩ f = ⟨(f s1).state, cs ++ (f s1).sent, (f s1).err⟩ := rfl

theorem registerPendingIfChanged_isReady (s : ClientState) (k : OssmField)
    (a b : ℤ) : (registerPendingIfChanged s k a b).isReady = s.isReady := by
  rw [registerPendingIfChanged]
  split <;> rfl

theorem registerPendingIfChanged_cachedState (s : ClientState) (k : OssmField)
    (a b : ℤ) : (registerPendingIfChanged s k a b).cachedState = s.cachedState := by
  rw [registerPendingIfChanged]
  split <;> rfl

theorem registerPendingIfChanged_respond (s : ClientState) (k : OssmField)
    (a b : ℤ) : (registerPendingIfChanged s k a b).respond = s.respond := by
  rw [registerPendingIfChanged]
  split <;> rfl

theorem setDepth_echo (s : ClientState) (v : ℤ) (cap : OssmState)
    (h0 : 0 ≤ v) (h1 : v ≤ 100) (hc : s.cachedState = some cap)
    (hne : cap.depth ≠ v) (hr : s.isReady = true)
    (hresp : ∀ c, s.respond c = DeviceResponse.echo) :
    setDepth s (Rat.ofInt v) =
      ⟨{ s with pendingStateTarget :=
           (s.pendingStateTarget.set .depth (.num v)).erase .depth },
       [.setDepthCmd (depthApiValue v)], none⟩ := by
  rw [setDepth_run s v h0 h1 (by rw [hc]; simpa using hne) hr, hresp]

theorem setStroke_echo (s : ClientState) (v : ℤ) (cap : OssmState)
    (h0 : 0 ≤ v) (h1 : v ≤ 100) (hc : s.cachedState = some cap)
    (hne : cap.stroke ≠ v) (hr : s.isReady = true)
    (hresp : ∀ c, s.respond c = DeviceResponse.echo) :
    setStroke s (Rat.ofInt v) =
      ⟨{ s with pendingStateTarget :=
           (s.pendingStateTarget.set .stroke (.num v)).erase .stroke },
       [.setStrokeCmd (strokeApiValue v)], none⟩ := by
  rw [setStroke_run s v h0 h1 (by rw [hc]; simpa using hne) hr, hresp]

theorem setSpeed_echo (s : ClientState) (v : ℤ) (cap : OssmState)
    (h0 : 0 ≤ v) (h1 : v ≤ 100) (hc : s.cachedState = some cap)
    (hne : cap.speed ≠ v) (hr : s.isReady = true)
    (hresp : ∀ c, s.respond c = DeviceResponse.echo) :
    setSpeed s (Rat.ofInt v) =
      ⟨{ s with pendingStateTarget :=
           (s.pendingStateTarget.set .speed (.num v)).erase .speed },
       [.setSpeedCmd v], none⟩ := by
  rw [setSpeed_run s v h0 h1 (by rw [hc]; simpa using hne) hr, hresp]

theorem setSensation_echo (s : ClientState) (v : ℤ) (cap : OssmState)
    (h0 : 0 ≤ v) (h1 : v ≤ 100) (hc : s.cachedState = some cap)
    (hne : cap.sensation ≠ v) (hr : s.isReady = true)
    (hresp : ∀ c, s.respond c = DeviceResponse.echo) :
    setSensation s (Rat.ofInt v) =
      ⟨{ s with pendingStateTarget :=
           (s.pendingStateTarget.set .sensation (.num v)).erase .sensation },
       [.setSensationCmd (sensationApiValue v)], none⟩ := by
  rw [setSensation_run s v h0 h1 (by rw [hc]; simpa using hne) hr, hresp]

theorem riskyChain_sent (s : ClientState) (cap : OssmState) (d : OssmPlayData)
    (hr : s.isReady = true) (hc : s.cachedState = some cap)
    (hresp : ∀ c, s.respond c = DeviceResponse.echo)
    (hd0 : 0 ≤ d.depth) (hd1 : d.depth ≤ 100)
    (hs0 : 0 ≤ d.stroke) (hs1 : d.stroke ≤ 100)
    (hv0 : 0 ≤ d.speed) (hv1 : d.speed ≤ 100)
    (hn0 : 0 ≤ d.sensation) (hn1 : d.sensation ≤ 100)
    (hdne : cap.depth ≠ d.depth) (hsne : cap.stroke ≠ d.stroke)
    (hvne : cap.speed ≠ d.speed) (hnne : cap.sensation ≠ d.sensation) :
    (opSeq (setDepth s (Rat.ofInt d.depth)) (fun s1 =>
      opSeq (setStroke s1 (Rat.ofInt d.stroke)) (fun s2 =>
        opSeq (setSpeed s2 (Rat.ofInt d.speed)) (fun s3 =>
          setSensation s3 (Rat.ofInt d.sensation))))).sent =
      [.setDepthCmd (depthApiValue d.depth), .setStrokeCmd (strokeApiValue d.stroke),
       .setSpeedCmd d.speed, .setSensationCmd (sensationApiValue d.sensation)] ∧
    (opSeq (setDepth s (Rat.ofInt d.depth)) (fun s1 =>
      opSeq (setStroke s1 (Rat.ofInt d.stroke)) (fun s2 =>
        opSeq (setSpeed s2 (Rat.ofInt d.speed)) (fun s3 =>
          setSensation s3 (Rat.ofInt d.sensation))))).err = none := by
  rw [setDepth_echo s d.depth cap hd0 hd1 hc hdne hr hresp, opSeq_ok]
  rw [setStroke_echo _ d.stroke cap hs0 hs1 (by exact hc) hsne (by exact hr)
    (by exact hresp), opSeq_ok]
  rw [setSpeed_echo _ d.speed cap hv0 hv1 (by exact hc) hvne (by exact hr)
    (by exact hresp), opSeq_ok]
  rw [setSensation_echo _ d.sensation cap hn0 hn1 (by exact hc) hnne (by exact hr)
    (by exact hresp)]
  exact ⟨rfl, rfl⟩

/-- C1 (amended): in the risky-extension branch of runStrokeEnginePattern —
new speed strictly above the cached speed and the new range extending beyond
the old one — the field writes are issued in the order depth, then stroke,
then speed, then sensation: the speed is raised after the depth and stroke
writes but before the sensation write, not last.  (Stated for a pattern that
is already selected, with all four values valid, distinct from the cached
ones, on a ready client whose device echoes.) -/
theorem runStrokeEnginePattern_risky_order (st : ClientState) (cap : OssmState)
    (d : OssmPlayData)
    (hcache : st.cachedState = some cap)
    (hpage : getCurrentPage (some cap) = .ok OssmPage.strokeEngine)
    (hpat : cap.pattern = d.pattern)
    (hsp : cap.speed < d.speed)
    (hrisky : d.depth - d.stroke < cap.depth - cap.stroke ∨ cap.depth < d.depth)
    (hd0 : 0 ≤ d.depth) (hd1 : d.depth ≤ 100)
    (hs0 : 0 ≤ d.stroke) (hs1 : d.stroke ≤ 100)
    (hv0 : 0 ≤ d.speed) (hv1 : d.speed ≤ 100)
    (hn0 : 0 ≤ d.sensation) (hn1 : d.sensation ≤ 100)
    (hdne : cap.depth ≠ d.depth) (hsne : cap.stroke ≠ d.stroke)
    (hnne : cap.sensation ≠ d.sensation)
    (hr : st.isReady = true)
    (hresp : ∀ c, st.respond c = DeviceResponse.echo) :
    (runStrokeEnginePattern st d).sent =
      [.setDepthCmd (depthApiValue d.depth), .setStrokeCmd (strokeApiValue d.stroke),
       .setSpeedCmd d.speed, .setSensationCmd (sensationApiValue d.sensation)] ∧
    (runStrokeEnginePattern st d).err = none := by
  have hiff1 : ¬ (OssmPage.strokeEngine ≠ OssmPage.strokeEngine) := fun hcon => hcon rfl
  have hiff2 : ¬ (cap.pattern ≠ d.pattern) := fun hcon => hcon hpat
  have hiff3 : ¬ (d.speed < cap.speed) := by omega
  have hiff4 : cap.speed < d.speed ∧
      (d.depth - d.stroke < cap.depth - cap.stroke ∨ cap.depth < d.depth) :=
    ⟨hsp, hrisky⟩
  simp only [runStrokeEnginePattern, hcache, hpage, if_neg hiff1, if_neg hiff2,
    if_neg hiff3, if_pos hiff4, opSeq_ok, List.nil_append]
  refine riskyChain_sent _ cap d ?_ ?_ ?_ hd0 hd1 hs0 hs1 hv0 hv1 hn0 hn1
    hdne hsne (by omega) hnne
  · simp only [registerPendingIfChanged_isReady]
    exact hr
  · simp only [registerPendingIfChanged_cachedState]
    exact hcache
  · intro c
    simp only [registerPendingIfChanged_respond]
    exact hresp c

theorem runStrokeEnginePattern_risky_order_witness :
    (runStrokeEnginePattern clientRisky playRisky).sent =
      [.setDepthCmd (depthApiValue 70), .setStrokeCmd (strokeApiValue 30),
       .setSpeedCmd 80, .setSensationCmd (sensationApiValue 60)] ∧
    (runStrokeEnginePattern clientRisky playRisky).err = none :=
  runStrokeEnginePattern_risky_order clientRisky snapshotStrokeEngine playRisky
    rfl rfl rfl (by decide) (by decide) (by decide) (by decide)
    (by decide) (by decide) (by decide) (by decide) (by decide) (by decide)
    (by decide) (by decide) (by decide) rfl (fun _ => rfl)
